import Mathlib

/-!
Verification of the attributed-graph ADT (`graph.py`) and the PageRank
engine (`pagerank.py`).

The Python code is shallowly embedded: the graph is a record holding the
insertion-ordered node dictionary, the edge list and the adjacency index;
every mutating operation is a state-passing function that returns either
the new state or, on failure, the raised `GraphError` together with the
state at the moment of the raise.  Python floats are modelled by exact
rationals.
-/

namespace PageRankRepo

/-- An attribute mapping (`**attributes` keyword dictionary), modelled as an
insertion-ordered association list of string keys and string values. -/
abbrev Attrs := List (String × String)

/-- `Node` from `graph.py`: an identifier plus an attribute mapping. -/
structure Node (α : Type) where
  identifier : α
  attributes : Attrs
deriving Repr, DecidableEq

/-- `Edge` from `graph.py`: the two stored `Node` objects (source first) plus
an attribute mapping. -/
structure Edge (α : Type) where
  node1 : Node α
  node2 : Node α
  attributes : Attrs
deriving Repr, DecidableEq

/-- `GraphError` from `graph.py`: the single exception class of the ADT.
Its only payload is the message string. -/
structure GraphError where
  message : String
deriving Repr, DecidableEq

/-- The state of a `BaseGraph`: `_nodes` (insertion-ordered id -> Node
dictionary, modelled as the list of its values), `_edges` (list of Edge
objects) and `_adjacency` (insertion-ordered id -> neighbor-id-list
dictionary). -/
structure GraphState (α : Type) where
  nodeList : List (Node α)
  edgeList : List (Edge α)
  adjacency : List (α × List α)
deriving Repr, DecidableEq

variable {α : Type}

/-- `node_id in self._nodes`: dictionary key membership. -/
def containsNodeKey [DecidableEq α] (g : GraphState α) (i : α) : Bool :=
  g.nodeList.any (fun nd => decide (nd.identifier = i))

/-- `self._nodes[node_id]`: dictionary lookup (keys are unique in any state
reachable through the API, so the first match is the entry). -/
def findNode [DecidableEq α] (g : GraphState α) (i : α) : Option (Node α) :=
  g.nodeList.find? (fun nd => decide (nd.identifier = i))

/-- `self._adjacency[node_id]`, defaulting to `[]` for an absent key (the
API keeps the adjacency keys equal to the node keys, so the default is
never used on reachable states). -/
def adjListD [DecidableEq α] (g : GraphState α) (i : α) : List α :=
  ((g.adjacency.find? (fun p => decide (p.1 = i))).map Prod.snd).getD []

/-- `self._adjacency[k].append(v)`. -/
def adjAppend [DecidableEq α] (adj : List (α × List α)) (k : α) (v : α) :
    List (α × List α) :=
  adj.map (fun p => if p.1 = k then (p.1, p.2 ++ [v]) else p)

/-- `BaseGraph.add_node`.  On failure the raised error is returned together
with the state at the moment of the raise. -/
def addNode [DecidableEq α] [ToString α] (g : GraphState α) (nodeId : α)
    (prop : Attrs) : Sum (GraphError × GraphState α) (GraphState α) :=
  if containsNodeKey g nodeId then
    Sum.inl (⟨s!"Node {nodeId} already exists"⟩, g)
  else
    Sum.inr { g with
      nodeList := g.nodeList ++ [⟨nodeId, prop⟩],
      adjacency := g.adjacency ++ [(nodeId, [])] }

/-- `BaseGraph.node`. -/
def nodeFn [DecidableEq α] [ToString α] (g : GraphState α) (nodeId : α) :
    Except GraphError (Node α) :=
  match findNode g nodeId with
  | some nd => .ok nd
  | none => .error ⟨s!"Node {nodeId} not found"⟩

/-- The list `sorted(self._nodes)` of node keys in ascending order. -/
def sortedKeys [LinearOrder α] (g : GraphState α) : List α :=
  List.insertionSort (· ≤ ·) (g.nodeList.map Node.identifier)

/-- `BaseGraph.nodes`: the node objects listed by ascending identifier. -/
def nodesFn [LinearOrder α] (g : GraphState α) : List (Node α) :=
  (sortedKeys g).filterMap (fun i => findNode g i)

/-- Does edge `e` run from the node with id `a` to the node with id `b`? -/
def edgeMatches [DecidableEq α] (a b : α) (e : Edge α) : Bool :=
  decide (e.node1.identifier = a) && decide (e.node2.identifier = b)

/-- `BaseGraph.add_edge` (inherited unchanged by `DirectedGraph`). -/
def addEdge [DecidableEq α] [ToString α] (g : GraphState α)
    (node1Id node2Id : α) (prop : Attrs) :
    Sum (GraphError × GraphState α) (GraphState α) :=
  if ¬ containsNodeKey g node1Id then
    Sum.inl (⟨s!"Node {node1Id} not found"⟩, g)
  else if ¬ containsNodeKey g node2Id then
    Sum.inl (⟨s!"Node {node2Id} not found"⟩, g)
  else if g.edgeList.any (edgeMatches node1Id node2Id) then
    Sum.inl (⟨s!"Edge ({node1Id},{node2Id}) already exists"⟩, g)
  else
    let n1 := (findNode g node1Id).getD ⟨node1Id, []⟩
    let n2 := (findNode g node2Id).getD ⟨node2Id, []⟩
    Sum.inr { g with
      edgeList := g.edgeList ++ [⟨n1, n2, prop⟩],
      adjacency := adjAppend g.adjacency node1Id node2Id }

/-- `BaseGraph.edge`: first stored edge matching the ordered pair. -/
def edgeFn [DecidableEq α] [ToString α] (g : GraphState α)
    (node1Id node2Id : α) : Except GraphError (Edge α) :=
  match g.edgeList.find? (edgeMatches node1Id node2Id) with
  | some e => .ok e
  | none => .error ⟨s!"Edge ({node1Id},{node2Id}) not found"⟩

/-- Lexicographic order on the identifier pair of two edges, the sort key
`(e.nodes()[0].identifier(), e.nodes()[1].identifier())` of
`BaseGraph.edges`. -/
def edgeKeyLe [LinearOrder α] (e1 e2 : Edge α) : Prop :=
  e1.node1.identifier < e2.node1.identifier ∨
    (e1.node1.identifier = e2.node1.identifier ∧
      e1.node2.identifier ≤ e2.node2.identifier)

instance [LinearOrder α] : DecidableRel (@edgeKeyLe α _) := fun e1 e2 => by
  unfold edgeKeyLe
  infer_instance

instance [LinearOrder α] : IsTotal (Edge α) edgeKeyLe where
  total e1 e2 := by
    unfold edgeKeyLe
    rcases lt_trichotomy e1.node1.identifier e2.node1.identifier with h | h | h
    · exact Or.inl (Or.inl h)
    · rcases le_total e1.node2.identifier e2.node2.identifier with h2 | h2
      · exact Or.inl (Or.inr ⟨h, h2⟩)
      · exact Or.inr (Or.inr ⟨h.symm, h2⟩)
    · exact Or.inr (Or.inl h)

instance [LinearOrder α] : IsTrans (Edge α) edgeKeyLe where
  trans e1 e2 e3 h12 h23 := by
    unfold edgeKeyLe at *
    rcases h12 with h12 | ⟨h12a, h12b⟩
    · rcases h23 with h23 | ⟨h23a, h23b⟩
      · exact Or.inl (h12.trans h23)
      · exact Or.inl (h23a ▸ h12)
    · rcases h23 with h23 | ⟨h23a, h23b⟩
      · exact Or.inl (h12a ▸ h23)
      · exact Or.inr ⟨h12a.trans h23a, h12b.trans h23b⟩

/-- `BaseGraph.edges`: all stored edges sorted by the identifier pair. -/
def edgesFn [LinearOrder α] (g : GraphState α) : List (Edge α) :=
  List.insertionSort edgeKeyLe g.edgeList

/-- `UndirectedGraph.add_edge`: self-loop check, endpoint checks,
either-direction duplicate check, then both directed records are stored. -/
def addEdgeU [DecidableEq α] [ToString α] (g : GraphState α)
    (node1Id node2Id : α) (prop : Attrs) :
    Sum (GraphError × GraphState α) (GraphState α) :=
  if node1Id = node2Id then
    Sum.inl (⟨"Self-loops are not allowed in undirected graphs"⟩, g)
  else if ¬ containsNodeKey g node1Id then
    Sum.inl (⟨s!"Node {node1Id} not found"⟩, g)
  else if ¬ containsNodeKey g node2Id then
    Sum.inl (⟨s!"Node {node2Id} not found"⟩, g)
  else if g.edgeList.any (fun e =>
      edgeMatches node1Id node2Id e || edgeMatches node2Id node1Id e) then
    Sum.inl (⟨s!"Edge ({node1Id},{node2Id}) already exists"⟩, g)
  else
    let n1 := (findNode g node1Id).getD ⟨node1Id, []⟩
    let n2 := (findNode g node2Id).getD ⟨node2Id, []⟩
    Sum.inr { g with
      edgeList := g.edgeList ++ [⟨n1, n2, prop⟩, ⟨n2, n1, prop⟩],
      adjacency := adjAppend (adjAppend g.adjacency node1Id node2Id)
        node2Id node1Id }

/-- `UndirectedGraph.degree`. -/
def degreeFn [DecidableEq α] [ToString α] (g : GraphState α) (nodeId : α) :
    Except GraphError Nat :=
  if containsNodeKey g nodeId then .ok (adjListD g nodeId).length
  else .error ⟨s!"Node {nodeId} not found"⟩

/-- `DirectedGraph.in_degree`: scan of all edges for a matching
destination. -/
def inDegreeFn [DecidableEq α] [ToString α] (g : GraphState α) (nodeId : α) :
    Except GraphError Nat :=
  if containsNodeKey g nodeId then
    .ok (g.edgeList.countP (fun e => decide (e.node2.identifier = nodeId)))
  else .error ⟨s!"Node {nodeId} not found"⟩

/-- `DirectedGraph.out_degree`: adjacency-list length. -/
def outDegreeFn [DecidableEq α] [ToString α] (g : GraphState α) (nodeId : α) :
    Except GraphError Nat :=
  if containsNodeKey g nodeId then .ok (adjListD g nodeId).length
  else .error ⟨s!"Node {nodeId} not found"⟩

/-- `out_degree` as a total function (the membership check of the method
always succeeds on the identifiers the PageRank engine passes to it; the
checked variant below keeps the raise). -/
def outDegreeT [DecidableEq α] (g : GraphState α) (nodeId : α) : Nat :=
  (adjListD g nodeId).length

/-- A Python key value that may be a scalar node identifier or a 2-element
sequence of scalars (node identifiers can themselves be tuples, so a key can
simultaneously be a present node id and an edge pair). -/
inductive Ident where
  | n : Nat → Ident
  | p : Nat → Nat → Ident
deriving Repr, DecidableEq

/-- `str` of an identifier, a tuple rendering as in Python. -/
def identStr : Ident → String
  | .n v => toString v
  | .p a b => s!"({a}, {b})"

instance : ToString Ident := ⟨identStr⟩

/-- Result of `BaseGraph.__getitem__`: a node or an edge. -/
inductive GetResult (α : Type) where
  | nodeRes : Node α → GetResult α
  | edgeRes : Edge α → GetResult α
deriving Repr, DecidableEq

/-- `key[0], key[1]`: subscripting a key.  A pair yields its components (as
scalar identifiers); subscripting a scalar raises `TypeError`, modelled as
`none`. -/
def keyComponents : Ident → Option (Ident × Ident)
  | .p a b => some (.n a, .n b)
  | .n _ => none

/-- `BaseGraph.__getitem__`: node lookup first, then edge lookup on the
subscripted key, then `Key ... not found`. -/
def getItem (g : GraphState Ident) (k : Ident) :
    Except GraphError (GetResult Ident) :=
  match nodeFn g k with
  | .ok nd => .ok (.nodeRes nd)
  | .error _ =>
    match keyComponents k with
    | some (a, b) =>
      match edgeFn g a b with
      | .ok e => .ok (.edgeRes e)
      | .error _ => .error ⟨s!"Key {k} not found"⟩
    | none => .error ⟨s!"Key {k} not found"⟩

/-- `BaseGraph.__contains__`: node-key membership first, then edge lookup
on the subscripted key. -/
def containsFn (g : GraphState Ident) (k : Ident) : Bool :=
  if containsNodeKey g k then true
  else
    match keyComponents k with
    | some (a, b) => (edgeFn g a b).toBool
    | none => false

/-! ### The PageRank engine (`pagerank.py`), over exact rationals -/

/-- `ranks[i]`: rank-dictionary lookup (every key the engine reads is
present, so the `0` default of the model is never used there). -/
def lookupRank [DecidableEq α] (r : List (α × ℚ)) (i : α) : ℚ :=
  ((r.find? (fun q => decide (q.1 = i))).map Prod.snd).getD 0

/-- `{node.identifier(): 1/N for node in digraph.nodes()}`. -/
def initRanks [LinearOrder α] (g : GraphState α) : List (α × ℚ) :=
  (nodesFn g).map (fun nd => (nd.identifier, 1 / (g.nodeList.length : ℚ)))

/-- The `dangling_sum` accumulation loop of one iteration. -/
def danglingSum [LinearOrder α] (g : GraphState α) (r : List (α × ℚ)) : ℚ :=
  (nodesFn g).foldl
    (fun s nd =>
      if outDegreeT g nd.identifier = 0 then s + lookupRank r nd.identifier
      else s)
    0

/-- `in_links`: source identifiers of the edges into `v`, in `edges()`
order. -/
def inLinks [LinearOrder α] (g : GraphState α) (v : α) : List α :=
  ((edgesFn g).filter (fun e => decide (e.node2.identifier = v))).map
    (fun e => e.node1.identifier)

/-- The `rank_sum` accumulation loop: each in-link source with positive
out-degree contributes its current rank divided by its out-degree. -/
def rankSum [LinearOrder α] (g : GraphState α) (r : List (α × ℚ)) (v : α) :
    ℚ :=
  (inLinks g v).foldl
    (fun s u =>
      if 0 < outDegreeT g u then s + lookupRank r u / (outDegreeT g u : ℚ)
      else s)
    0

/-- One iteration of the PageRank loop: `new_ranks` is built from the frozen
snapshot `r` and then replaces the rank mapping. -/
def pagerankStep [LinearOrder α] (g : GraphState α) (d : ℚ)
    (r : List (α × ℚ)) : List (α × ℚ) :=
  (nodesFn g).map (fun nd =>
    (nd.identifier,
      (1 - d) / (g.nodeList.length : ℚ) +
        d * (rankSum g r nd.identifier +
          danglingSum g r / (g.nodeList.length : ℚ))))

/-- The rank mapping after `k` iterations. -/
def pagerankAux [LinearOrder α] (g : GraphState α) (d : ℚ) :
    Nat → List (α × ℚ)
  | 0 => initRanks g
  | k + 1 => pagerankStep g d (pagerankAux g d k)

/-- `pagerank(digraph, num_iterations, damping_factor)`. -/
def pagerank [LinearOrder α] (g : GraphState α) (numIterations : Nat)
    (d : ℚ) : List (α × ℚ) :=
  pagerankAux g d numIterations

/-! ### Checked variant of the engine: every division and every
`out_degree` call may fail (`ZeroDivisionError` / `GraphError` modelled as
`none`) -/

/-- Division that fails on a zero divisor. -/
def qdiv (a b : ℚ) : Option ℚ :=
  if b = 0 then none else some (a / b)

/-- `digraph.out_degree(i)` with its raise on an absent identifier. -/
def outDegreeC [DecidableEq α] (g : GraphState α) (i : α) : Option Nat :=
  if containsNodeKey g i then some (adjListD g i).length else none

/-- Sequencing of a fallible computation over a list. -/
def mapOpt (f : β → Option γ) : List β → Option (List γ)
  | [] => some []
  | x :: xs =>
    match f x, mapOpt f xs with
    | some y, some ys => some (y :: ys)
    | _, _ => none

/-- The `dangling_sum` loop with the `out_degree` raise kept. -/
def danglingAuxC [DecidableEq α] (g : GraphState α) (r : List (α × ℚ)) :
    List (Node α) → ℚ → Option ℚ
  | [], s => some s
  | nd :: rest, s =>
    match outDegreeC g nd.identifier with
    | none => none
    | some od =>
      danglingAuxC g r rest
        (if od = 0 then s + lookupRank r nd.identifier else s)

/-- The `rank_sum` loop with the `out_degree` raise and the division
kept fallible. -/
def rankSumAuxC [DecidableEq α] (g : GraphState α) (r : List (α × ℚ)) :
    List α → ℚ → Option ℚ
  | [], s => some s
  | u :: rest, s =>
    match outDegreeC g u with
    | none => none
    | some od =>
      if 0 < od then
        match qdiv (lookupRank r u) (od : ℚ) with
        | none => none
        | some q => rankSumAuxC g r rest (s + q)
      else rankSumAuxC g r rest s

/-- One checked iteration. -/
def pagerankStepC [LinearOrder α] (g : GraphState α) (d : ℚ)
    (r : List (α × ℚ)) : Option (List (α × ℚ)) :=
  match danglingAuxC g r (nodesFn g) 0 with
  | none => none
  | some ds =>
    mapOpt (fun nd =>
      match rankSumAuxC g r (inLinks g nd.identifier) 0 with
      | none => none
      | some rs =>
        match qdiv (1 - d) ((g.nodeList.length : ℚ)),
            qdiv ds ((g.nodeList.length : ℚ)) with
        | some a, some b => some (nd.identifier, a + d * (rs + b))
        | _, _ => none)
      (nodesFn g)

/-- The checked engine: `none` exactly when some division has a zero
divisor or some `out_degree` call raises. -/
def pagerankAuxC [LinearOrder α] (g : GraphState α) (d : ℚ) :
    Nat → Option (List (α × ℚ))
  | 0 =>
    mapOpt
      (fun nd =>
        (qdiv 1 ((g.nodeList.length : ℚ))).map (fun q => (nd.identifier, q)))
      (nodesFn g)
  | k + 1 =>
    match pagerankAuxC g d k with
    | none => none
    | some r => pagerankStepC g d r

/-! ### The report formatter (`print_ranks`) -/

/-- `round(q, 5)` represented by its numerator over the fixed denominator
`10^5`: the integer nearest to `q * 10^5`, halves to even (the rounding of
Python's `round`).  Working on `q.num` and `q.den` keeps the whole
computation in integer arithmetic: `q * 10^5 = (q.num * 10^5) / q.den`,
its floor is the floor division below, and the fractional part is compared
with `1/2` by comparing twice the remainder with the denominator. -/
def scaleRound5 (q : ℚ) : ℤ :=
  let n := q.num * 100000
  let d := (q.den : ℤ)
  let f := Int.fdiv n d
  let r := n - f * d
  if 2 * r < d then f
  else if d < 2 * r then f + 1
  else if f % 2 = 0 then f else f + 1

/-- Left-pad a string with zeros to the given width. -/
def padZeros (s : String) (w : Nat) : String :=
  String.mk (List.replicate (w - s.length) '0') ++ s

/-- `f"{q:.5f}"`: fixed-point rendering with five decimals — the rounded
scaled value split into its integer and fraction digits. -/
def formatFixed5 (q : ℚ) : String :=
  let z := scaleRound5 q
  let sign := if z < 0 then "-" else ""
  let m := z.natAbs
  sign ++ toString (m / 100000) ++ "." ++ padZeros (toString (m % 100000)) 5

/-- The sort order of `print_ranks`: `i` before `j` when `i`'s rounded rank
is larger, with ties broken by larger identifier (`reverse=True` over the
key `(round(ranks[node], 5), node)`).  Two ranks rounded to five decimals
compare exactly as their `scaleRound5` integers, which are those roundings
scaled by the positive constant `10^5`. -/
def printOrder (r : List (Nat × ℚ)) (i j : Nat) : Prop :=
  scaleRound5 (lookupRank r j) < scaleRound5 (lookupRank r i) ∨
    (scaleRound5 (lookupRank r j) = scaleRound5 (lookupRank r i) ∧ j ≤ i)

instance (r : List (Nat × ℚ)) : DecidableRel (printOrder r) := fun i j => by
  unfold printOrder
  infer_instance

instance (r : List (Nat × ℚ)) : IsTotal Nat (printOrder r) where
  total i j := by
    unfold printOrder
    rcases lt_trichotomy (scaleRound5 (lookupRank r j))
      (scaleRound5 (lookupRank r i)) with h | h | h
    · exact Or.inl (Or.inl h)
    · rcases le_total j i with h2 | h2
      · exact Or.inl (Or.inr ⟨h, h2⟩)
      · exact Or.inr (Or.inr ⟨h.symm, h2⟩)
    · exact Or.inr (Or.inl h)

instance (r : List (Nat × ℚ)) : IsTrans Nat (printOrder r) where
  trans i j k hij hjk := by
    unfold printOrder at *
    rcases hij with hij | ⟨hija, hijb⟩
    · rcases hjk with hjk | ⟨hjka, hjkb⟩
      · exact Or.inl (hjk.trans hij)
      · exact Or.inl (hjka ▸ hij)
    · rcases hjk with hjk | ⟨hjka, hjkb⟩
      · exact Or.inl (hija ▸ hjk)
      · exact Or.inr ⟨hjka.trans hija, hjkb.trans hijb⟩

instance (r : List (Nat × ℚ)) : IsAntisymm Nat (printOrder r) where
  antisymm i j hij hji := by
    unfold printOrder at *
    rcases hij with hij | ⟨hija, hijb⟩
    · rcases hji with hji | ⟨hjia, _⟩
      · exact absurd (hij.trans hji) (lt_irrefl _)
      · exact absurd hij (by rw [hjia]; exact lt_irrefl _)
    · rcases hji with hji | ⟨_, hjib⟩
      · exact absurd hji (by rw [hija]; exact lt_irrefl _)
      · exact le_antisymm hjib hijb

/-- `print_ranks(ranks, max_nodes)`: the printed lines.  `max_nodes` is
reset to `len(ranks)` when it is not in `range(len(ranks))`; the ids are
listed by descending rounded rank (ties: descending id); an ellipsis line
follows exactly when the listing is truncated; the final line is the sum of
all ranks. -/
def printRanks (r : List (Nat × ℚ)) (maxNodes : Nat) : List String :=
  let m := if maxNodes < r.length then maxNodes else r.length
  let sortedIds := List.insertionSort (printOrder r) (r.map Prod.fst)
  (sortedIds.take m).map
      (fun i => s!"{i}: {formatFixed5 (lookupRank r i)}") ++
    (if m < r.length then ["..."] else []) ++
    [s!"Sum: {formatFixed5 ((sortedIds.map (fun i => lookupRank r i)).sum)}"]

/-! ### Basic lemmas about the graph state -/

theorem containsNodeKey_iff [DecidableEq α] (g : GraphState α) (i : α) :
    containsNodeKey g i = true ↔ i ∈ g.nodeList.map Node.identifier := by
  simp [containsNodeKey, List.any_eq_true, List.mem_map]

theorem findNode_eq_some_of_mem [DecidableEq α] (g : GraphState α) (i : α)
    (h : i ∈ g.nodeList.map Node.identifier) :
    ∃ nd, findNode g i = some nd ∧ nd.identifier = i := by
  have hs : (g.nodeList.find? (fun nd => decide (nd.identifier = i))).isSome := by
    rw [List.find?_isSome]
    obtain ⟨nd, hnd, rfl⟩ := List.mem_map.mp h
    exact ⟨nd, hnd, by simp⟩
  obtain ⟨nd, hnd⟩ := Option.isSome_iff_exists.mp hs
  refine ⟨nd, hnd, ?_⟩
  have := List.find?_some hnd
  simpa using this

theorem mem_nodeList_of_mem_nodesFn [LinearOrder α] (g : GraphState α)
    (nd : Node α) (h : nd ∈ nodesFn g) : nd ∈ g.nodeList := by
  obtain ⟨i, _, hf⟩ := List.mem_filterMap.mp h
  exact List.mem_of_find?_eq_some hf

theorem mem_sortedKeys_iff [LinearOrder α] (g : GraphState α) (i : α) :
    i ∈ sortedKeys g ↔ i ∈ g.nodeList.map Node.identifier := by
  simp [sortedKeys, List.mem_insertionSort]

theorem nodesFn_map_identifier [LinearOrder α] (g : GraphState α) :
    (nodesFn g).map Node.identifier = sortedKeys g := by
  unfold nodesFn
  have hgen : ∀ l : List α, (∀ i ∈ l, i ∈ g.nodeList.map Node.identifier) →
      ((l.filterMap (fun i => findNode g i)).map Node.identifier) = l := by
    intro l
    induction l with
    | nil => simp
    | cons a l ih =>
      intro h
      obtain ⟨nd, hnd, hid⟩ := findNode_eq_some_of_mem g a (h a (by simp))
      rw [List.filterMap_cons, hnd]
      simp only [List.map_cons, hid]
      rw [ih (fun i hi => h i (List.mem_cons_of_mem _ hi))]
  exact hgen (sortedKeys g) (fun i hi => (mem_sortedKeys_iff g i).mp hi)

theorem identifier_mem_of_mem_nodesFn [LinearOrder α] (g : GraphState α)
    (nd : Node α) (h : nd ∈ nodesFn g) :
    nd.identifier ∈ g.nodeList.map Node.identifier :=
  List.mem_map_of_mem Node.identifier (mem_nodeList_of_mem_nodesFn g nd h)

theorem mem_edgeList_of_mem_edgesFn [LinearOrder α] (g : GraphState α)
    (e : Edge α) (h : e ∈ edgesFn g) : e ∈ g.edgeList := by
  simpa [edgesFn, List.mem_insertionSort] using h

/-- Claim C3: regardless of insertion order, `nodes()` returns the nodes
sorted by ascending identifier (a permutation of the stored nodes'
identifiers), and `edges()` returns all stored edge records sorted
lexicographically by the pair (source identifier, destination
identifier). -/
theorem nodes_and_edges_deterministically_ordered [LinearOrder α]
    (g : GraphState α) :
    List.Sorted (· ≤ ·) ((nodesFn g).map Node.identifier) ∧
    ((nodesFn g).map Node.identifier).Perm (g.nodeList.map Node.identifier) ∧
    List.Sorted (fun p q : α × α => p.1 < q.1 ∨ (p.1 = q.1 ∧ p.2 ≤ q.2))
      ((edgesFn g).map
        (fun e => (e.node1.identifier, e.node2.identifier))) ∧
    (edgesFn g).Perm g.edgeList := by
  refine ⟨?_, ?_, ?_, ?_⟩
  · rw [nodesFn_map_identifier]
    exact List.sorted_insertionSort _ _
  · rw [nodesFn_map_identifier]
    exact List.perm_insertionSort _ _
  · have hs : List.Sorted edgeKeyLe (edgesFn g) :=
      List.sorted_insertionSort _ _
    exact List.Pairwise.map _ (fun e1 e2 h => h) hs
  · exact List.perm_insertionSort _ _

/-- Claim C4: every failing mutation (duplicate node, missing endpoint,
duplicate edge, self-loop) returns the raised error together with the
state exactly as it was — the checks all precede any mutation; and a
successful undirected `add_edge` appends both directed records
atomically. -/
theorem failing_mutations_leave_state_unchanged [DecidableEq α] [ToString α]
    (g : GraphState α) (a b : α) (attrs : Attrs) :
    (∀ e g1, addNode g a attrs = Sum.inl (e, g1) → g1 = g) ∧
    (∀ e g1, addEdge g a b attrs = Sum.inl (e, g1) → g1 = g) ∧
    (∀ e g1, addEdgeU g a b attrs = Sum.inl (e, g1) → g1 = g) ∧
    (∀ g1, addEdgeU g a b attrs = Sum.inr g1 →
      ∃ e1 e2, g1.edgeList = g.edgeList ++ [e1, e2] ∧
        e1.node1.identifier = a ∧ e1.node2.identifier = b ∧
        e2.node1.identifier = b ∧ e2.node2.identifier = a ∧
        e1.attributes = attrs ∧ e2.attributes = attrs) := by
  have hgetD : ∀ (i : α), ((findNode g i).getD ⟨i, []⟩).identifier = i := by
    intro i
    cases h : findNode g i with
    | none => simp
    | some nd =>
      have := List.find?_some h
      simp only [Option.getD_some]
      simpa using this
  refine ⟨?_, ?_, ?_, ?_⟩
  · intro e g1 h
    unfold addNode at h
    split at h
    · exact (congrArg Prod.snd (Sum.inl.inj h)).symm
    · exact absurd h (by simp)
  · intro e g1 h
    unfold addEdge at h
    split at h
    · exact (congrArg Prod.snd (Sum.inl.inj h)).symm
    · split at h
      · exact (congrArg Prod.snd (Sum.inl.inj h)).symm
      · split at h
        · exact (congrArg Prod.snd (Sum.inl.inj h)).symm
        · exact absurd h (by simp)
  · intro e g1 h
    unfold addEdgeU at h
    split at h
    · exact (congrArg Prod.snd (Sum.inl.inj h)).symm
    · split at h
      · exact (congrArg Prod.snd (Sum.inl.inj h)).symm
      · split at h
        · exact (congrArg Prod.snd (Sum.inl.inj h)).symm
        · split at h
          · exact (congrArg Prod.snd (Sum.inl.inj h)).symm
          · exact absurd h (by simp)
  · intro g1 h
    unfold addEdgeU at h
    split at h
    · exact absurd h (by simp)
    · split at h
      · exact absurd h (by simp)
      · split at h
        · exact absurd h (by simp)
        · split at h
          · exact absurd h (by simp)
          · have h1 := Sum.inr.inj h
            refine
              ⟨⟨(findNode g a).getD ⟨a, []⟩, (findNode g b).getD ⟨b, []⟩,
                  attrs⟩,
                ⟨(findNode g b).getD ⟨b, []⟩, (findNode g a).getD ⟨a, []⟩,
                  attrs⟩,
                ?_, hgetD a, hgetD b, hgetD b, hgetD a, rfl, rfl⟩
            rw [← h1]

/-- Claim C10: in the overloaded dispatch of `__getitem__` and
`__contains__`, node lookup takes precedence: whenever the key is the
identifier of a present node, indexing returns that node and membership is
true, whatever edges exist. -/
theorem getitem_node_lookup_precedence (g : GraphState Ident) (k : Ident)
    (h : containsNodeKey g k = true) :
    (∃ nd, findNode g k = some nd ∧ nd.identifier = k ∧
      getItem g k = .ok (.nodeRes nd)) ∧
    containsFn g k = true := by
  obtain ⟨nd, hnd, hid⟩ :=
    findNode_eq_some_of_mem g k ((containsNodeKey_iff g k).mp h)
  constructor
  · exact ⟨nd, hnd, hid, by simp [getItem, nodeFn, hnd]⟩
  · simp [containsFn, h]

/-- A graph whose node identifier `(1, 2)` is itself a valid edge key, and
in which the edge `1 → 2` also exists: the dispatch must prefer the
node. -/
def gKeyClash : GraphState Ident :=
  { nodeList := [⟨.p 1 2, []⟩, ⟨.n 1, []⟩, ⟨.n 2, []⟩],
    edgeList := [⟨⟨.n 1, []⟩, ⟨.n 2, []⟩, []⟩],
    adjacency := [(.p 1 2, []), (.n 1, [.n 2]), (.n 2, [])] }

/-- Witness for C10: on `gKeyClash` the key `(1, 2)` names both a present
node and an existing edge, and membership reports the node. -/
theorem getitem_node_lookup_precedence_witness :
    containsFn gKeyClash (.p 1 2) = true ∧
    (edgeFn gKeyClash (.n 1) (.n 2)).toBool = true :=
  ⟨(getitem_node_lookup_precedence gKeyClash (.p 1 2) (by decide)).2,
    by decide⟩

/-- A one-node graph used as concrete input for failure witnesses. -/
def gOneNode : GraphState Nat :=
  { nodeList := [⟨0, []⟩], edgeList := [], adjacency := [(0, [])] }

/-- Witness for C4: adding the already-present node `0` to `gOneNode` fails
and leaves the state unchanged. -/
theorem failing_mutations_leave_state_unchanged_witness :
    addNode gOneNode 0 [] =
      Sum.inl (⟨"Node 0 already exists"⟩, gOneNode) ∧ gOneNode = gOneNode :=
  ⟨by decide,
    (failing_mutations_leave_state_unchanged gOneNode 0 0 []).1
      ⟨"Node 0 already exists"⟩ gOneNode (by decide)⟩

/-! ### Lemmas about the adjacency index -/

theorem adjAppend_keys [DecidableEq α] (adj : List (α × List α)) (k v : α) :
    (adjAppend adj k v).map Prod.fst = adj.map Prod.fst := by
  unfold adjAppend
  rw [List.map_map]
  apply List.map_congr_left
  intro p _
  by_cases h : p.1 = k <;> simp [h]

theorem find_adjAppend_self [DecidableEq α] (adj : List (α × List α))
    (k v : α) :
    (adjAppend adj k v).find? (fun p => decide (p.1 = k)) =
      (adj.find? (fun p => decide (p.1 = k))).map
        (fun p => (p.1, p.2 ++ [v])) := by
  induction adj with
  | nil => simp [adjAppend]
  | cons p rest ih =>
    by_cases h : p.1 = k
    · simp [adjAppend, List.find?, h]
    · simp only [adjAppend, List.map_cons] at ih ⊢
      rw [if_neg h]
      rw [List.find?_cons_of_neg _ (by simp [h]),
        List.find?_cons_of_neg _ (by simp [h])]
      exact ih

theorem find_adjAppend_ne [DecidableEq α] (adj : List (α × List α))
    (k v k2 : α) (hne : k2 ≠ k) :
    (adjAppend adj k v).find? (fun p => decide (p.1 = k2)) =
      adj.find? (fun p => decide (p.1 = k2)) := by
  induction adj with
  | nil => simp [adjAppend]
  | cons p rest ih =>
    by_cases h : p.1 = k2
    · have hpk : ¬ p.1 = k := by rw [h]; exact hne
      simp only [adjAppend, List.map_cons, if_neg hpk]
      rw [List.find?_cons_of_pos _ (by simp [h]),
        List.find?_cons_of_pos _ (by simp [h])]
    · by_cases hpk : p.1 = k
      · simp only [adjAppend, List.map_cons, if_pos hpk]
        rw [List.find?_cons_of_neg _ (by simp [h]),
          List.find?_cons_of_neg _ (by simp [h])]
        exact ih
      · simp only [adjAppend, List.map_cons, if_neg hpk]
        rw [List.find?_cons_of_neg _ (by simp [h]),
          List.find?_cons_of_neg _ (by simp [h])]
        exact ih

theorem find_adj_isSome_of_mem [DecidableEq α] (adj : List (α × List α))
    (k : α) (h : k ∈ adj.map Prod.fst) :
    ∃ p, adj.find? (fun p => decide (p.1 = k)) = some p ∧ p.1 = k := by
  have hs : (adj.find? (fun p => decide (p.1 = k))).isSome := by
    rw [List.find?_isSome]
    obtain ⟨p, hp, rfl⟩ := List.mem_map.mp h
    exact ⟨p, hp, by simp⟩
  obtain ⟨p, hp⟩ := Option.isSome_iff_exists.mp hs
  exact ⟨p, hp, by simpa using List.find?_some hp⟩

theorem findNode_getD_identifier [DecidableEq α] (g : GraphState α) (i : α) :
    ((findNode g i).getD ⟨i, []⟩).identifier = i := by
  cases h : findNode g i with
  | none => simp
  | some nd =>
    have := List.find?_some h
    simp only [Option.getD_some]
    simpa using this

instance {ε β : Type} [DecidableEq ε] [DecidableEq β] :
    DecidableEq (Except ε β) := fun x y =>
  match x, y with
  | .ok a, .ok b =>
    if h : a = b then .isTrue (h ▸ rfl)
    else .isFalse (fun hc => h (Except.ok.inj hc))
  | .ok _, .error _ => .isFalse (fun hc => Except.noConfusion hc)
  | .error _, .ok _ => .isFalse (fun hc => Except.noConfusion hc)
  | .error a, .error b =>
    if h : a = b then .isTrue (h ▸ rfl)
    else .isFalse (fun hc => h (Except.error.inj hc))

theorem find_append_left_none (p : β → Bool) (l1 l2 : List β)
    (h : ∀ x ∈ l1, p x = false) : (l1 ++ l2).find? p = l2.find? p := by
  induction l1 with
  | nil => simp
  | cons x xs ih =>
    rw [List.cons_append, List.find?_cons_of_neg _ (by simp [h x (by simp)])]
    exact ih (fun y hy => h y (by simp [hy]))

/-- Destructuring a successful undirected `add_edge`: all four guards
passed and the state gained exactly the two directed records and the two
adjacency entries. -/
theorem addEdgeU_inr [DecidableEq α] [ToString α] {g g1 : GraphState α}
    {a b : α} {attrs : Attrs} (h : addEdgeU g a b attrs = Sum.inr g1) :
    a ≠ b ∧ containsNodeKey g a = true ∧ containsNodeKey g b = true ∧
    (∀ e ∈ g.edgeList,
      edgeMatches a b e = false ∧ edgeMatches b a e = false) ∧
    g1 = { g with
      edgeList := g.edgeList ++
        [⟨(findNode g a).getD ⟨a, []⟩, (findNode g b).getD ⟨b, []⟩, attrs⟩,
          ⟨(findNode g b).getD ⟨b, []⟩, (findNode g a).getD ⟨a, []⟩,
            attrs⟩],
      adjacency := adjAppend (adjAppend g.adjacency a b) b a } := by
  unfold addEdgeU at h
  split_ifs at h with h1 h2 h3 h4
  refine ⟨h1, h2, h3, ?_, (Sum.inr.inj h).symm⟩
  intro e he
  have h4b : ¬ (edgeMatches a b e || edgeMatches b a e) = true := by
    intro hx
    exact h4 (List.any_eq_true.mpr ⟨e, he, hx⟩)
  simp only [Bool.or_eq_true, not_or] at h4b
  exact ⟨Bool.eq_false_iff.mpr h4b.1, Bool.eq_false_iff.mpr h4b.2⟩

/-- Destructuring a successful `add_edge` of the base/directed variant. -/
theorem addEdge_inr [DecidableEq α] [ToString α] {g g1 : GraphState α}
    {a b : α} {attrs : Attrs} (h : addEdge g a b attrs = Sum.inr g1) :
    containsNodeKey g a = true ∧ containsNodeKey g b = true ∧
    (∀ e ∈ g.edgeList, edgeMatches a b e = false) ∧
    g1 = { g with
      edgeList := g.edgeList ++
        [⟨(findNode g a).getD ⟨a, []⟩, (findNode g b).getD ⟨b, []⟩,
          attrs⟩],
      adjacency := adjAppend g.adjacency a b } := by
  unfold addEdge at h
  split_ifs at h with h1 h2 h3
  refine ⟨h1, h2, ?_, (Sum.inr.inj h).symm⟩
  intro e he
  exact Bool.eq_false_iff.mpr
    (fun hx => h3 (List.any_eq_true.mpr ⟨e, he, hx⟩))

/-- Claim C5: after a successful undirected `add_edge(a,b)`, both
`edge(a,b)` and `edge(b,a)` succeed with identical attributes, the degrees
of `a` and `b` each grow by exactly one, and re-adding the relation in
either argument order fails with the duplicate-edge error, leaving the
state unchanged. -/
theorem undirected_edge_addition [DecidableEq α] [ToString α]
    (g g1 : GraphState α) (a b : α) (attrs attrs2 : Attrs)
    (hadj : g.adjacency.map Prod.fst = g.nodeList.map Node.identifier)
    (hsucc : addEdgeU g a b attrs = Sum.inr g1) :
    (∃ e1 e2, edgeFn g1 a b = .ok e1 ∧ edgeFn g1 b a = .ok e2 ∧
      e1.attributes = e2.attributes ∧ e1.attributes = attrs) ∧
    (∀ da, degreeFn g a = .ok da → degreeFn g1 a = .ok (da + 1)) ∧
    (∀ db, degreeFn g b = .ok db → degreeFn g1 b = .ok (db + 1)) ∧
    addEdgeU g1 b a attrs2 =
      Sum.inl (⟨s!"Edge ({b},{a}) already exists"⟩, g1) ∧
    addEdgeU g1 a b attrs2 =
      Sum.inl (⟨s!"Edge ({a},{b}) already exists"⟩, g1) := by
  obtain ⟨hne, hca, hcb, hold, hg1⟩ := addEdgeU_inr hsucc
  set n1 := (findNode g a).getD ⟨a, []⟩ with hn1
  set n2 := (findNode g b).getD ⟨b, []⟩ with hn2
  have hid1 : n1.identifier = a := findNode_getD_identifier g a
  have hid2 : n2.identifier = b := findNode_getD_identifier g b
  have hmatch_ab : edgeMatches a b ⟨n1, n2, attrs⟩ = true := by
    simp [edgeMatches, hid1, hid2]
  have hmatch_ba : edgeMatches b a ⟨n2, n1, attrs⟩ = true := by
    simp [edgeMatches, hid1, hid2]
  have hnot_ba_e1 : edgeMatches b a ⟨n1, n2, attrs⟩ = false := by
    simp only [edgeMatches]
    rw [Bool.and_eq_false_iff]
    left
    simpa [hid1] using hne
  have hnodes1 : g1.nodeList = g.nodeList := by rw [hg1]
  have hedges1 : g1.edgeList =
      g.edgeList ++ [⟨n1, n2, attrs⟩, ⟨n2, n1, attrs⟩] := by rw [hg1]
  have hadj1 : g1.adjacency = adjAppend (adjAppend g.adjacency a b) b a := by
    rw [hg1]
  have hca1 : containsNodeKey g1 a = true := by
    unfold containsNodeKey at hca ⊢
    rw [hnodes1]
    exact hca
  have hcb1 : containsNodeKey g1 b = true := by
    unfold containsNodeKey at hcb ⊢
    rw [hnodes1]
    exact hcb
  have hmema : a ∈ g.adjacency.map Prod.fst := by
    rw [hadj]
    exact (containsNodeKey_iff g a).mp hca
  have hmemb : b ∈ g.adjacency.map Prod.fst := by
    rw [hadj]
    exact (containsNodeKey_iff g b).mp hcb
  obtain ⟨pa, hpa, hpa1⟩ := find_adj_isSome_of_mem g.adjacency a hmema
  obtain ⟨pb, hpb, hpb1⟩ := find_adj_isSome_of_mem g.adjacency b hmemb
  have hlen_a : adjListD g1 a = adjListD g a ++ [b] := by
    unfold adjListD
    rw [hadj1, find_adjAppend_ne _ _ _ _ hne, find_adjAppend_self, hpa]
    simp
  have hlen_b : adjListD g1 b = adjListD g b ++ [a] := by
    unfold adjListD
    rw [hadj1, find_adjAppend_self, find_adjAppend_ne _ _ _ _ (Ne.symm hne),
      hpb]
    simp
  refine ⟨?_, ?_, ?_, ?_, ?_⟩
  · refine ⟨⟨n1, n2, attrs⟩, ⟨n2, n1, attrs⟩, ?_, ?_, rfl, rfl⟩
    · unfold edgeFn
      rw [hedges1, find_append_left_none _ _ _ (fun e he => (hold e he).1),
        List.find?_cons_of_pos _ hmatch_ab]
    · unfold edgeFn
      rw [hedges1, find_append_left_none _ _ _ (fun e he => (hold e he).2),
        List.find?_cons_of_neg _ (by simp [hnot_ba_e1]),
        List.find?_cons_of_pos _ hmatch_ba]
  · intro da hda
    unfold degreeFn at hda ⊢
    rw [if_pos hca] at hda
    rw [if_pos hca1, hlen_a]
    simp only [List.length_append, List.length_cons, List.length_nil]
    rw [← Except.ok.inj hda]
  · intro db hdb
    unfold degreeFn at hdb ⊢
    rw [if_pos hcb] at hdb
    rw [if_pos hcb1, hlen_b]
    simp only [List.length_append, List.length_cons, List.length_nil]
    rw [← Except.ok.inj hdb]
  · unfold addEdgeU
    rw [if_neg (fun hx => hne hx.symm), if_neg (not_not_intro hcb1),
      if_neg (not_not_intro hca1), if_pos]
    apply List.any_eq_true.mpr
    refine ⟨⟨n1, n2, attrs⟩, ?_, ?_⟩
    · rw [hedges1]
      simp
    · simp [hmatch_ab]
  · unfold addEdgeU
    rw [if_neg hne, if_neg (not_not_intro hca1),
      if_neg (not_not_intro hcb1), if_pos]
    apply List.any_eq_true.mpr
    refine ⟨⟨n1, n2, attrs⟩, ?_, ?_⟩
    · rw [hedges1]
      simp
    · simp [hmatch_ab]

/-- Concrete two-node undirected graph for the C5 witness. -/
def gTwoNodes : GraphState Nat :=
  { nodeList := [⟨1, []⟩, ⟨2, []⟩], edgeList := [],
    adjacency := [(1, []), (2, [])] }

/-- The state of `gTwoNodes` after a successful `add_edge(1, 2)`. -/
def gTwoNodesE : GraphState Nat :=
  { nodeList := [⟨1, []⟩, ⟨2, []⟩],
    edgeList := [⟨⟨1, []⟩, ⟨2, []⟩, []⟩, ⟨⟨2, []⟩, ⟨1, []⟩, []⟩],
    adjacency := [(1, [2]), (2, [1])] }

/-- Witness for C5 at the concrete graph `gTwoNodes`. -/
theorem undirected_edge_addition_witness :
    degreeFn gTwoNodesE 1 = .ok (0 + 1) ∧
    addEdgeU gTwoNodesE 2 1 [] =
      Sum.inl (⟨"Edge (2,1) already exists"⟩, gTwoNodesE) := by
  have h := undirected_edge_addition gTwoNodes gTwoNodesE 1 2 [] []
    (by decide) (by decide)
  exact ⟨h.2.1 0 (by decide), h.2.2.2.1⟩

/-- Claim C6: undirected `add_edge(a,a)` always fails with the self-loop
error (for any state, in particular whenever `a` is present), while the
directed variant accepts a fresh self-loop, which then increases both the
in-degree and the out-degree of `a` by exactly one. -/
theorem self_loop_handling [DecidableEq α] [ToString α]
    (g gd : GraphState α) (a : α) (attrs : Attrs)
    (hadj : gd.adjacency.map Prod.fst = gd.nodeList.map Node.identifier)
    (ha : containsNodeKey gd a = true)
    (hnew : gd.edgeList.any (edgeMatches a a) = false) :
    addEdgeU g a a attrs =
      Sum.inl (⟨"Self-loops are not allowed in undirected graphs"⟩, g) ∧
    ∀ ia oa, inDegreeFn gd a = .ok ia → outDegreeFn gd a = .ok oa →
      ∃ gd1, addEdge gd a a attrs = Sum.inr gd1 ∧
        inDegreeFn gd1 a = .ok (ia + 1) ∧
        outDegreeFn gd1 a = .ok (oa + 1) := by
  constructor
  · unfold addEdgeU
    rw [if_pos rfl]
  · intro ia oa hia hoa
    set n1 := (findNode gd a).getD ⟨a, []⟩ with hn1
    have hid1 : n1.identifier = a := findNode_getD_identifier gd a
    set gd1 : GraphState α := { gd with
      edgeList := gd.edgeList ++ [⟨n1, n1, attrs⟩],
      adjacency := adjAppend gd.adjacency a a } with hgd1
    have hsucc : addEdge gd a a attrs = Sum.inr gd1 := by
      unfold addEdge
      rw [if_neg (not_not_intro ha), if_neg (not_not_intro ha),
        if_neg (by simp [hnew])]
    have hca1 : containsNodeKey gd1 a = true := by
      unfold containsNodeKey at ha ⊢
      exact ha
    obtain ⟨pa, hpa, hpa1⟩ := find_adj_isSome_of_mem gd.adjacency a
      (by rw [hadj]; exact (containsNodeKey_iff gd a).mp ha)
    refine ⟨gd1, hsucc, ?_, ?_⟩
    · unfold inDegreeFn at hia ⊢
      rw [if_pos ha] at hia
      rw [if_pos hca1]
      have : gd1.edgeList = gd.edgeList ++ [⟨n1, n1, attrs⟩] := by rw [hgd1]
      rw [this, List.countP_append, ← Except.ok.inj hia]
      simp [List.countP_cons, hid1]
    · unfold outDegreeFn at hoa ⊢
      rw [if_pos ha] at hoa
      rw [if_pos hca1]
      have hadj1 : gd1.adjacency = adjAppend gd.adjacency a a := by
        rw [hgd1]
      have : adjListD gd1 a = adjListD gd a ++ [a] := by
        unfold adjListD
        rw [hadj1, find_adjAppend_self, hpa]
        simp
      rw [this, List.length_append, ← Except.ok.inj hoa]
      simp

/-- Concrete directed one-node graph for the C6 witness. -/
def gLoopBase : GraphState Nat :=
  { nodeList := [⟨3, []⟩], edgeList := [], adjacency := [(3, [])] }

/-- Witness for C6: the self-loop failure on any undirected state, and the
successful directed self-loop on `gLoopBase` with both degrees going from
0 to 1. -/
theorem self_loop_handling_witness :
    addEdgeU gLoopBase 3 3 [] =
      Sum.inl (⟨"Self-loops are not allowed in undirected graphs"⟩,
        gLoopBase) ∧
    ∃ gd1, addEdge gLoopBase 3 3 [] = Sum.inr gd1 ∧
      inDegreeFn gd1 3 = .ok (0 + 1) ∧ outDegreeFn gd1 3 = .ok (0 + 1) := by
  have h := self_loop_handling gLoopBase gLoopBase 3 []
    (by decide) (by decide) (by decide)
  exact ⟨h.1, h.2 0 0 (by decide) (by decide)⟩

/-! ### The error taxonomy -/

/-- Modelled from the spec: the five distinguishable error kinds of the
documented taxonomy (`DuplicateNodeError`, `NodeNotFoundError`,
`DuplicateEdgeError`, `SelfLoopError`, `EdgeNotFoundError`).  The code
itself defines no such kinds: its only error class is `GraphError`. -/
inductive SpecErrorKind where
  | duplicateNode : SpecErrorKind
  | nodeNotFound : SpecErrorKind
  | duplicateEdge : SpecErrorKind
  | selfLoop : SpecErrorKind
  | edgeNotFound : SpecErrorKind
deriving Repr, DecidableEq

/-- Everything a `GraphError` value carries besides its raw message
string.  The class has a single field, so this is trivial: two errors that
agree on the message agree outright, and apart from the message every two
errors are indistinguishable. -/
def errorKindData : GraphError → Unit := fun _ => ()

/-- Counterexample to C7: the duplicate-node failure and the self-loop
failure — which the claim says are carried as two distinguishable error
kinds rather than raw strings — both come out of the code as plain
`GraphError` values whose entire non-message content is identical, so no
kind can be recovered from the errors other than by reading the raw
message strings. -/
theorem error_taxonomy_counterexample :
    addNode gOneNode 0 [] =
      Sum.inl (⟨"Node 0 already exists"⟩, gOneNode) ∧
    addEdgeU gOneNode 0 0 [] =
      Sum.inl (⟨"Self-loops are not allowed in undirected graphs"⟩,
        gOneNode) ∧
    errorKindData ⟨"Node 0 already exists"⟩ =
      errorKindData ⟨"Self-loops are not allowed in undirected graphs"⟩ := by
  refine ⟨by decide, ?_, rfl⟩
  unfold addEdgeU
  rw [if_pos rfl]

/-- Claim C7 (amended): every failure of the ADT is carried as the single
error kind `GraphError`, whose only payload is a message string; the five
failure situations of the claim produce the five message shapes below, so
a caller can tell them apart only by message content (and the sample
messages are pairwise distinct). -/
theorem graph_error_messages [DecidableEq α] [ToString α]
    (g : GraphState α) (a b : α) (attrs : Attrs) :
    (containsNodeKey g a = true →
      addNode g a attrs = Sum.inl (⟨s!"Node {a} already exists"⟩, g)) ∧
    (containsNodeKey g a = false →
      nodeFn g a = .error ⟨s!"Node {a} not found"⟩) ∧
    (containsNodeKey g a = true → containsNodeKey g b = true →
      g.edgeList.any (edgeMatches a b) = true →
      addEdge g a b attrs =
        Sum.inl (⟨s!"Edge ({a},{b}) already exists"⟩, g)) ∧
    (addEdgeU g a a attrs =
      Sum.inl (⟨"Self-loops are not allowed in undirected graphs"⟩, g)) ∧
    (g.edgeList.find? (edgeMatches a b) = none →
      edgeFn g a b = .error ⟨s!"Edge ({a},{b}) not found"⟩) ∧
    ([(⟨"Node 0 already exists"⟩ : GraphError), ⟨"Node 0 not found"⟩,
      ⟨"Edge (0,1) already exists"⟩,
      ⟨"Self-loops are not allowed in undirected graphs"⟩,
      ⟨"Edge (0,1) not found"⟩] : List GraphError).Nodup := by
  refine ⟨?_, ?_, ?_, ?_, ?_, by decide⟩
  · intro h
    unfold addNode
    rw [if_pos h]
  · intro h
    have hnone : findNode g a = none := by
      rw [findNode, List.find?_eq_none]
      intro nd hnd
      simp only [decide_eq_true_eq]
      intro hid
      have : containsNodeKey g a = true :=
        (containsNodeKey_iff g a).mpr
          (hid ▸ List.mem_map_of_mem Node.identifier hnd)
      rw [h] at this
      exact Bool.false_ne_true this
    unfold nodeFn
    rw [hnone]
  · intro h1 h2 h3
    unfold addEdge
    rw [if_neg (not_not_intro h1), if_neg (not_not_intro h2), if_pos h3]
  · unfold addEdgeU
    rw [if_pos rfl]
  · intro h
    unfold edgeFn
    rw [h]

/-- Witness for the amended C7 at concrete inputs: a duplicate `add_node`
on `gOneNode` and a missed edge lookup produce exactly the message-string
errors. -/
theorem graph_error_messages_witness :
    addNode gOneNode 0 [] =
      Sum.inl (⟨"Node 0 already exists"⟩, gOneNode) ∧
    edgeFn gOneNode 0 1 = .error ⟨"Edge (0,1) not found"⟩ := by
  have h := graph_error_messages gOneNode 0 1 []
  exact ⟨h.1 (by decide), h.2.2.2.2.1 (by decide)⟩

/-! ### Spec-side description of the PageRank iteration -/

/-- Modelled from the spec: `dangling_sum` is the sum of the current ranks
of the nodes whose out-degree is zero. -/
def specDangling [LinearOrder α] (g : GraphState α) (old : α → ℚ) : ℚ :=
  (((nodesFn g).filter
      (fun nd => decide (outDegreeT g nd.identifier = 0))).map
    (fun nd => old nd.identifier)).sum

/-- Modelled from the spec: the in-flow into `v` is the sum over the edges
`(u, v)` of `old_rank[u] / out_degree(u)`. -/
def specInflow [LinearOrder α] (g : GraphState α) (old : α → ℚ) (v : α) :
    ℚ :=
  ((g.edgeList.filter (fun e => decide (e.node2.identifier = v))).map
    (fun e => old e.node1.identifier /
      (outDegreeT g e.node1.identifier : ℚ))).sum

/-- Modelled from the spec (§4.2): the rank of node `v` after `k` rounds —
every node starts at `1/N`, and each round applies
`new_rank[v] = (1-damping)/N + damping * (inflow + dangling_sum/N)`
to the frozen previous round. -/
def specRank [LinearOrder α] (g : GraphState α) (d : ℚ) : Nat → α → ℚ
  | 0 => fun _ => 1 / (g.nodeList.length : ℚ)
  | k + 1 => fun v =>
    (1 - d) / (g.nodeList.length : ℚ) +
      d * (specInflow g (specRank g d k) v +
        specDangling g (specRank g d k) / (g.nodeList.length : ℚ))

/-- The value the code's iteration assigns to identifier `v` after `k`
rounds (reading the previous round through the rank dictionary). -/
def rankFun [LinearOrder α] (g : GraphState α) (d : ℚ) : Nat → α → ℚ
  | 0 => fun _ => 1 / (g.nodeList.length : ℚ)
  | k + 1 => fun v =>
    (1 - d) / (g.nodeList.length : ℚ) +
      d * (rankSum g (pagerankAux g d k) v +
        danglingSum g (pagerankAux g d k) / (g.nodeList.length : ℚ))

theorem pagerankAux_eq_map [LinearOrder α] (g : GraphState α) (d : ℚ)
    (k : Nat) :
    pagerankAux g d k =
      (nodesFn g).map
        (fun nd => (nd.identifier, rankFun g d k nd.identifier)) := by
  cases k with
  | zero => rfl
  | succ k => rfl

theorem lookupRank_map_nodes [DecidableEq α] (nds : List (Node α))
    (f : α → ℚ) (v : α) (h : v ∈ nds.map Node.identifier) :
    lookupRank (nds.map (fun nd => (nd.identifier, f nd.identifier))) v =
      f v := by
  induction nds with
  | nil => simp at h
  | cons nd rest ih =>
    by_cases hv : nd.identifier = v
    · unfold lookupRank
      rw [List.map_cons, List.find?_cons_of_pos _ (by simp [hv])]
      simp [hv]
    · unfold lookupRank at ih ⊢
      rw [List.map_cons, List.find?_cons_of_neg _ (by simp [hv])]
      apply ih
      rcases List.mem_map.mp h with ⟨x, hx, hxid⟩
      rcases List.mem_cons.mp hx with hx2 | hx2
      · exact absurd (hx2 ▸ hxid) hv
      · exact hxid ▸ List.mem_map_of_mem Node.identifier hx2

theorem lookup_pagerankAux [LinearOrder α] (g : GraphState α) (d : ℚ)
    (k : Nat) (v : α) (hv : v ∈ g.nodeList.map Node.identifier) :
    lookupRank (pagerankAux g d k) v = rankFun g d k v := by
  rw [pagerankAux_eq_map]
  apply lookupRank_map_nodes
  rw [nodesFn_map_identifier]
  exact (mem_sortedKeys_iff g v).mpr hv

/-! ### List-sum lemmas -/

theorem foldl_guard_sum {β : Type} (p : β → Prop) [DecidablePred p]
    (f : β → ℚ) :
    ∀ (l : List β) (s0 : ℚ),
      l.foldl (fun s x => if p x then s + f x else s) s0 =
        s0 + ((l.filter (fun x => decide (p x))).map f).sum := by
  intro l
  induction l with
  | nil => simp
  | cons x xs ih =>
    intro s0
    by_cases hx : p x
    · rw [List.foldl_cons, if_pos hx, ih,
        List.filter_cons_of_pos (by simp [hx]), List.map_cons,
        List.sum_cons]
      ring
    · rw [List.foldl_cons, if_neg hx, ih,
        List.filter_cons_of_neg (by simp [hx])]

theorem sum_map_add {β : Type} (l : List β) (f h : β → ℚ) :
    (l.map (fun x => f x + h x)).sum = (l.map f).sum + (l.map h).sum := by
  induction l with
  | nil => simp
  | cons x xs ih =>
    simp only [List.map_cons, List.sum_cons, ih]
    ring

theorem sum_map_mul_left {β : Type} (l : List β) (c : ℚ) (f : β → ℚ) :
    (l.map (fun x => c * f x)).sum = c * (l.map f).sum := by
  induction l with
  | nil => simp
  | cons x xs ih =>
    simp only [List.map_cons, List.sum_cons, ih]
    ring

theorem sum_map_const {β : Type} (l : List β) (c : ℚ) :
    (l.map (fun _ => c)).sum = l.length * c := by
  induction l with
  | nil => simp
  | cons x xs ih =>
    simp only [List.map_cons, List.sum_cons, ih, List.length_cons]
    push_cast
    ring

theorem sum_indicator {γ : Type} [DecidableEq γ] (a : γ) (c : ℚ) :
    ∀ (keys : List γ), keys.Nodup → a ∈ keys →
      (keys.map (fun v => if a = v then c else 0)).sum = c := by
  intro keys
  induction keys with
  | nil => intro _ h; simp at h
  | cons k ks ih =>
    intro hnd hmem
    obtain ⟨hk, hnds⟩ := List.nodup_cons.mp hnd
    by_cases hak : a = k
    · simp only [List.map_cons, List.sum_cons, if_pos hak]
      have hz : ((ks.map (fun v => if a = v then c else 0))).sum = 0 := by
        apply List.sum_eq_zero
        intro x hx
        obtain ⟨v, hv, rfl⟩ := List.mem_map.mp hx
        rw [if_neg]
        intro hav
        exact hk (hak ▸ hav ▸ hv)
      rw [hz, add_zero]
    · simp only [List.map_cons, List.sum_cons, if_neg hak, zero_add]
      rcases List.mem_cons.mp hmem with h | h
      · exact absurd h hak
      · exact ih hnds h

theorem sum_group_by {β γ : Type} [DecidableEq γ] (keys : List γ)
    (key : β → γ) (f : β → ℚ) (hnd : keys.Nodup) :
    ∀ (l : List β), (∀ x ∈ l, key x ∈ keys) →
      (keys.map
        (fun v => ((l.filter (fun x => decide (key x = v))).map f).sum)).sum
        = (l.map f).sum := by
  intro l
  induction l with
  | nil =>
    intro _
    simp only [List.filter_nil, List.map_nil, List.sum_nil]
    exact List.sum_eq_zero (by simp)
  | cons x xs ih =>
    intro h
    have hx : key x ∈ keys := h x (by simp)
    have hstep : keys.map
        (fun v => (((x :: xs).filter
          (fun y => decide (key y = v))).map f).sum) =
        keys.map (fun v => (if key x = v then f x else 0) +
          ((xs.filter (fun y => decide (key y = v))).map f).sum) := by
      apply List.map_congr_left
      intro v _
      by_cases hxv : key x = v
      · rw [List.filter_cons_of_pos (by simp [hxv]), List.map_cons,
          List.sum_cons, if_pos hxv]
      · rw [List.filter_cons_of_neg (by simp [hxv]), if_neg hxv, zero_add]
    rw [hstep, sum_map_add, sum_indicator (key x) (f x) keys hnd hx,
      ih (fun y hy => h y (List.mem_cons_of_mem _ hy)),
      List.map_cons, List.sum_cons]

theorem sum_filter_const {β : Type} (l : List β) (p : β → Bool) (c : ℚ) :
    ((l.filter p).map (fun _ => c)).sum = (l.countP p : ℚ) * c := by
  rw [sum_map_const, List.countP_eq_length_filter]

theorem sum_filter_as_ite {β : Type} (l : List β) (p : β → Prop)
    [DecidablePred p] (f : β → ℚ) :
    ((l.filter (fun x => decide (p x))).map f).sum =
      (l.map (fun x => if p x then f x else 0)).sum := by
  induction l with
  | nil => simp
  | cons x xs ih =>
    by_cases hx : p x
    · rw [List.filter_cons_of_pos (by simp [hx]), List.map_cons,
        List.sum_cons, List.map_cons, List.sum_cons, if_pos hx, ih]
    · rw [List.filter_cons_of_neg (by simp [hx]), List.map_cons,
        List.sum_cons, if_neg hx, zero_add, ih]

/-! ### The code's iteration equals the spec's recurrence -/

theorem danglingSum_eq_spec [LinearOrder α] (g : GraphState α) (d : ℚ)
    (k : Nat) :
    danglingSum g (pagerankAux g d k) = specDangling g (rankFun g d k) := by
  unfold danglingSum specDangling
  rw [foldl_guard_sum (fun nd => outDegreeT g nd.identifier = 0)
    (fun nd => lookupRank (pagerankAux g d k) nd.identifier) (nodesFn g) 0,
    zero_add]
  apply congrArg List.sum
  apply List.map_congr_left
  intro nd hnd
  apply lookup_pagerankAux
  exact identifier_mem_of_mem_nodesFn g nd (List.mem_of_mem_filter hnd)

theorem rankSum_eq_spec [LinearOrder α] (g : GraphState α) (d : ℚ)
    (k : Nat) (v : α)
    (hsrc : ∀ e ∈ g.edgeList,
      e.node1.identifier ∈ g.nodeList.map Node.identifier)
    (hpos : ∀ e ∈ g.edgeList, 0 < outDegreeT g e.node1.identifier) :
    rankSum g (pagerankAux g d k) v = specInflow g (rankFun g d k) v := by
  unfold rankSum
  rw [foldl_guard_sum (fun u => 0 < outDegreeT g u)
    (fun u => lookupRank (pagerankAux g d k) u / (outDegreeT g u : ℚ))
    (inLinks g v) 0, zero_add]
  have hall : (inLinks g v).filter (fun u => decide (0 < outDegreeT g u)) =
      inLinks g v := by
    apply List.filter_eq_self.mpr
    intro u hu
    obtain ⟨e, he, rfl⟩ := List.mem_map.mp hu
    have he3 := mem_edgeList_of_mem_edgesFn g e (List.mem_of_mem_filter he)
    simpa using hpos e he3
  rw [hall]
  unfold inLinks specInflow
  rw [List.map_map]
  have hcongr : ((edgesFn g).filter
        (fun e => decide (e.node2.identifier = v))).map
      ((fun u => lookupRank (pagerankAux g d k) u / (outDegreeT g u : ℚ)) ∘
        (fun e => e.node1.identifier)) =
      ((edgesFn g).filter (fun e => decide (e.node2.identifier = v))).map
        (fun e => rankFun g d k e.node1.identifier /
          (outDegreeT g e.node1.identifier : ℚ)) := by
    apply List.map_congr_left
    intro e he
    have he3 := mem_edgeList_of_mem_edgesFn g e (List.mem_of_mem_filter he)
    simp only [Function.comp]
    rw [lookup_pagerankAux g d k _ (hsrc e he3)]
  rw [hcongr]
  exact (((List.perm_insertionSort edgeKeyLe g.edgeList).filter _).map
    _).sum_eq

theorem rankFun_succ [LinearOrder α] (g : GraphState α) (d : ℚ)
    (hsrc : ∀ e ∈ g.edgeList,
      e.node1.identifier ∈ g.nodeList.map Node.identifier)
    (hpos : ∀ e ∈ g.edgeList, 0 < outDegreeT g e.node1.identifier)
    (k : Nat) (v : α) :
    rankFun g d (k + 1) v =
      (1 - d) / (g.nodeList.length : ℚ) +
        d * (specInflow g (rankFun g d k) v +
          specDangling g (rankFun g d k) / (g.nodeList.length : ℚ)) := by
  show (1 - d) / (g.nodeList.length : ℚ) +
      d * (rankSum g (pagerankAux g d k) v +
        danglingSum g (pagerankAux g d k) / (g.nodeList.length : ℚ)) = _
  rw [rankSum_eq_spec g d k v hsrc hpos, danglingSum_eq_spec g d k]

theorem specDangling_congr [LinearOrder α] (g : GraphState α) (F G : α → ℚ)
    (h : ∀ v ∈ g.nodeList.map Node.identifier, F v = G v) :
    specDangling g F = specDangling g G := by
  unfold specDangling
  apply congrArg List.sum
  apply List.map_congr_left
  intro nd hnd
  exact h _ (identifier_mem_of_mem_nodesFn g nd (List.mem_of_mem_filter hnd))

theorem specInflow_congr [LinearOrder α] (g : GraphState α) (F G : α → ℚ)
    (hsrc : ∀ e ∈ g.edgeList,
      e.node1.identifier ∈ g.nodeList.map Node.identifier)
    (h : ∀ v ∈ g.nodeList.map Node.identifier, F v = G v) (v : α) :
    specInflow g F v = specInflow g G v := by
  unfold specInflow
  apply congrArg List.sum
  apply List.map_congr_left
  intro e he
  rw [h _ (hsrc e (List.mem_of_mem_filter he))]

theorem rankFun_eq_specRank [LinearOrder α] (g : GraphState α) (d : ℚ)
    (hsrc : ∀ e ∈ g.edgeList,
      e.node1.identifier ∈ g.nodeList.map Node.identifier)
    (hpos : ∀ e ∈ g.edgeList, 0 < outDegreeT g e.node1.identifier) :
    ∀ (k : Nat) (v : α), rankFun g d k v = specRank g d k v := by
  intro k
  induction k with
  | zero => intro v; rfl
  | succ k ih =>
    intro v
    rw [rankFun_succ g d hsrc hpos k v,
      specInflow_congr g (rankFun g d k) (specRank g d k) hsrc
        (fun u _ => ih u) v,
      specDangling_congr g (rankFun g d k) (specRank g d k)
        (fun u _ => ih u)]
    rfl

/-- Claim C1: `pagerank(digraph, k, damping)` computes exactly the spec's
recurrence — every node starts at `1/N` and exactly `k` rounds are
applied, each computing `dangling_sum` over the zero-out-degree nodes and
`new_rank[v] = (1-damping)/N + damping * (Σ over edges (u,v) of
old_rank[u]/out_degree(u) + dangling_sum/N)` from the frozen previous
round — and the returned mapping carries a rank for every node identifier
of the graph. -/
theorem pagerank_implements_spec_recurrence [LinearOrder α]
    (g : GraphState α) (k : Nat) (d : ℚ)
    (hN : 1 ≤ g.nodeList.length)
    (hnd : (g.nodeList.map Node.identifier).Nodup)
    (hsrc : ∀ e ∈ g.edgeList,
      e.node1.identifier ∈ g.nodeList.map Node.identifier)
    (hpos : ∀ e ∈ g.edgeList, 0 < outDegreeT g e.node1.identifier) :
    ((pagerank g k d).map Prod.fst).Perm
      (g.nodeList.map Node.identifier) ∧
    ∀ v ∈ g.nodeList.map Node.identifier,
      lookupRank (pagerank g k d) v = specRank g d k v := by
  constructor
  · show ((pagerankAux g d k).map Prod.fst).Perm _
    rw [pagerankAux_eq_map, List.map_map]
    have : (Prod.fst ∘ fun nd : Node α =>
        (nd.identifier, rankFun g d k nd.identifier)) = Node.identifier :=
      rfl
    rw [this, nodesFn_map_identifier]
    exact List.perm_insertionSort _ _
  · intro v hv
    show lookupRank (pagerankAux g d k) v = _
    rw [lookup_pagerankAux g d k v hv,
      rankFun_eq_specRank g d hsrc hpos k v]

/-- The chain `0 → 1 → 2` with dangling node `2`, as the directed-graph
API builds it. -/
def gChain : GraphState Nat :=
  { nodeList := [⟨0, []⟩, ⟨1, []⟩, ⟨2, []⟩],
    edgeList := [⟨⟨0, []⟩, ⟨1, []⟩, []⟩, ⟨⟨1, []⟩, ⟨2, []⟩, []⟩],
    adjacency := [(0, [1]), (1, [2]), (2, [])] }

/-- Witness for C1 on the concrete chain graph after two rounds. -/
theorem pagerank_implements_spec_recurrence_witness :
    lookupRank (pagerank gChain 2 (17 / 20)) 2 =
      specRank gChain (17 / 20) 2 2 :=
  (pagerank_implements_spec_recurrence gChain 2 (17 / 20) (by decide)
    (by decide) (by decide) (by decide)).2 2 (by decide)

/-! ### The rank mass is preserved: the ranks sum to one -/

theorem sum_snd_pagerankAux [LinearOrder α] (g : GraphState α) (d : ℚ)
    (k : Nat) :
    ((pagerankAux g d k).map Prod.snd).sum =
      ((g.nodeList.map Node.identifier).map (rankFun g d k)).sum := by
  rw [pagerankAux_eq_map, List.map_map]
  have h1 : (Prod.snd ∘ fun nd : Node α =>
      (nd.identifier, rankFun g d k nd.identifier)) =
      (rankFun g d k) ∘ Node.identifier := rfl
  rw [h1, ← List.map_map, nodesFn_map_identifier]
  exact ((List.perm_insertionSort _ _).map (rankFun g d k)).sum_eq

theorem specDangling_over_ids [LinearOrder α] (g : GraphState α)
    (F : α → ℚ) :
    specDangling g F =
      ((g.nodeList.map Node.identifier).map
        (fun v => if outDegreeT g v = 0 then F v else 0)).sum := by
  unfold specDangling
  have h1 : (((nodesFn g).map Node.identifier).filter
        (fun v => decide (outDegreeT g v = 0))).map F =
      ((nodesFn g).filter
        (fun nd => decide (outDegreeT g nd.identifier = 0))).map
        (fun nd => F nd.identifier) := by
    rw [List.filter_map, List.map_map]
    rfl
  rw [← h1, nodesFn_map_identifier, ← sum_filter_as_ite]
  exact (((List.perm_insertionSort _ _).filter _).map F).sum_eq

theorem sum_specInflow_over_ids [LinearOrder α] (g : GraphState α)
    (F : α → ℚ)
    (hnd : (g.nodeList.map Node.identifier).Nodup)
    (hsrc : ∀ e ∈ g.edgeList,
      e.node1.identifier ∈ g.nodeList.map Node.identifier)
    (hdst : ∀ e ∈ g.edgeList,
      e.node2.identifier ∈ g.nodeList.map Node.identifier)
    (hcnt : ∀ u ∈ g.nodeList.map Node.identifier,
      g.edgeList.countP (fun e => decide (e.node1.identifier = u)) =
        outDegreeT g u) :
    ((g.nodeList.map Node.identifier).map
        (fun v => specInflow g F v)).sum =
      ((g.nodeList.map Node.identifier).map
        (fun u => if outDegreeT g u = 0 then 0 else F u)).sum := by
  unfold specInflow
  rw [sum_group_by (g.nodeList.map Node.identifier)
    (fun e => e.node2.identifier)
    (fun e => F e.node1.identifier / (outDegreeT g e.node1.identifier : ℚ))
    hnd g.edgeList hdst]
  rw [← sum_group_by (g.nodeList.map Node.identifier)
    (fun e => e.node1.identifier)
    (fun e => F e.node1.identifier / (outDegreeT g e.node1.identifier : ℚ))
    hnd g.edgeList hsrc]
  apply congrArg List.sum
  apply List.map_congr_left
  intro u hu
  have hconst : (g.edgeList.filter
        (fun e => decide (e.node1.identifier = u))).map
      (fun e => F e.node1.identifier /
        (outDegreeT g e.node1.identifier : ℚ)) =
      (g.edgeList.filter (fun e => decide (e.node1.identifier = u))).map
        (fun _ => F u / (outDegreeT g u : ℚ)) := by
    apply List.map_congr_left
    intro e he
    have hsrcu : e.node1.identifier = u := by
      simpa using List.of_mem_filter he
    rw [hsrcu]
  rw [hconst, sum_filter_const, hcnt u hu]
  by_cases hz : outDegreeT g u = 0
  · rw [hz, if_pos rfl]
    simp
  · rw [if_neg hz, mul_comm,
      div_mul_cancel₀ (F u) (Nat.cast_ne_zero.mpr hz)]

theorem rankFun_total_mass [LinearOrder α] (g : GraphState α) (d : ℚ)
    (hN : 1 ≤ g.nodeList.length)
    (hnd : (g.nodeList.map Node.identifier).Nodup)
    (hsrc : ∀ e ∈ g.edgeList,
      e.node1.identifier ∈ g.nodeList.map Node.identifier)
    (hdst : ∀ e ∈ g.edgeList,
      e.node2.identifier ∈ g.nodeList.map Node.identifier)
    (hcnt : ∀ u ∈ g.nodeList.map Node.identifier,
      g.edgeList.countP (fun e => decide (e.node1.identifier = u)) =
        outDegreeT g u) :
    ∀ k : Nat,
      ((g.nodeList.map Node.identifier).map (rankFun g d k)).sum = 1 := by
  have hn0 : (g.nodeList.length : ℚ) ≠ 0 := Nat.cast_ne_zero.mpr (by omega)
  have hlen : ((g.nodeList.map Node.identifier).length : ℚ) =
      (g.nodeList.length : ℚ) := by
    rw [List.length_map]
  have hpos : ∀ e ∈ g.edgeList, 0 < outDegreeT g e.node1.identifier := by
    intro e he
    have h1 : 0 < g.edgeList.countP
        (fun x => decide (x.node1.identifier = e.node1.identifier)) :=
      List.countP_pos_iff.mpr ⟨e, he, by simp⟩
    rwa [hcnt _ (hsrc e he)] at h1
  intro k
  induction k with
  | zero =>
    have h0 : rankFun g d 0 =
        (fun _ : α => 1 / (g.nodeList.length : ℚ)) := rfl
    rw [h0, sum_map_const, hlen, mul_one_div,
      div_self hn0]
  | succ k ih =>
    have hstep : (g.nodeList.map Node.identifier).map
        (rankFun g d (k + 1)) =
        (g.nodeList.map Node.identifier).map
          (fun v => (1 - d) / (g.nodeList.length : ℚ) +
            d * (specInflow g (rankFun g d k) v +
              specDangling g (rankFun g d k) /
                (g.nodeList.length : ℚ))) := by
      apply List.map_congr_left
      intro v _
      exact rankFun_succ g d hsrc hpos k v
    rw [hstep, sum_map_add, sum_map_mul_left, sum_map_add, sum_map_const,
      sum_map_const, hlen, sum_specInflow_over_ids g (rankFun g d k) hnd
        hsrc hdst hcnt]
    have hD : specDangling g (rankFun g d k) =
        ((g.nodeList.map Node.identifier).map
          (fun v => if outDegreeT g v = 0 then rankFun g d k v else 0)).sum :=
      specDangling_over_ids g (rankFun g d k)
    have hsplit : ((g.nodeList.map Node.identifier).map
          (fun u => if outDegreeT g u = 0 then 0 else rankFun g d k u)).sum +
        ((g.nodeList.map Node.identifier).map
          (fun v => if outDegreeT g v = 0 then rankFun g d k v else 0)).sum
        = 1 := by
      rw [← sum_map_add, ← ih]
      apply congrArg List.sum
      apply List.map_congr_left
      intro v _
      by_cases hz : outDegreeT g v = 0
      · rw [if_pos hz, if_pos hz, zero_add]
      · rw [if_neg hz, if_neg hz, add_zero]
    rw [← hD] at hsplit
    have hA : (g.nodeList.length : ℚ) *
        ((1 - d) / (g.nodeList.length : ℚ)) = 1 - d := by
      field_simp
    have hB : (g.nodeList.length : ℚ) *
        (specDangling g (rankFun g d k) / (g.nodeList.length : ℚ)) =
        specDangling g (rankFun g d k) := by
      field_simp
    rw [hA, hB, hsplit]
    ring

/-- Claim C2: for every directed graph with at least one node and every
number of iterations, the ranks returned by `pagerank` sum to `1` — in the
exact-rational model the sum is exactly `1`, hence within the `1e-6`
tolerance — regardless of topology. -/
theorem pagerank_sum_within_tolerance [LinearOrder α] (g : GraphState α)
    (k : Nat) (d : ℚ)
    (hN : 1 ≤ g.nodeList.length)
    (hnd : (g.nodeList.map Node.identifier).Nodup)
    (hsrc : ∀ e ∈ g.edgeList,
      e.node1.identifier ∈ g.nodeList.map Node.identifier)
    (hdst : ∀ e ∈ g.edgeList,
      e.node2.identifier ∈ g.nodeList.map Node.identifier)
    (hcnt : ∀ u ∈ g.nodeList.map Node.identifier,
      g.edgeList.countP (fun e => decide (e.node1.identifier = u)) =
        outDegreeT g u)
    (hk : 1 ≤ k) :
    |((pagerank g k d).map Prod.snd).sum - 1| ≤ 1 / 1000000 := by
  have h1 : ((pagerank g k d).map Prod.snd).sum = 1 := by
    show ((pagerankAux g d k).map Prod.snd).sum = 1
    rw [sum_snd_pagerankAux]
    exact rankFun_total_mass g d hN hnd hsrc hdst hcnt k
  rw [h1, sub_self, abs_zero]
  norm_num

/-- Witness for C2 on the chain graph with the dangling node `2`. -/
theorem pagerank_sum_within_tolerance_witness :
    |((pagerank gChain 3 (17 / 20)).map Prod.snd).sum - 1| ≤ 1 / 1000000 :=
  pagerank_sum_within_tolerance gChain 3 (17 / 20) (by decide) (by decide)
    (by decide) (by decide) (by decide) (by decide)

/-! ### The checked engine never raises -/

theorem outDegreeC_eq [DecidableEq α] (g : GraphState α) (i : α)
    (h : containsNodeKey g i = true) :
    outDegreeC g i = some (outDegreeT g i) := by
  unfold outDegreeC outDegreeT
  rw [if_pos h]

theorem danglingAuxC_eq [DecidableEq α] (g : GraphState α)
    (r : List (α × ℚ)) :
    ∀ (l : List (Node α)),
      (∀ nd ∈ l, containsNodeKey g nd.identifier = true) →
      ∀ s, danglingAuxC g r l s =
        some (l.foldl
          (fun s nd =>
            if outDegreeT g nd.identifier = 0 then
              s + lookupRank r nd.identifier
            else s) s) := by
  intro l
  induction l with
  | nil => intro _ s; rfl
  | cons nd rest ih =>
    intro h s
    unfold danglingAuxC
    rw [outDegreeC_eq g nd.identifier (h nd (by simp))]
    exact ih (fun x hx => h x (List.mem_cons_of_mem _ hx)) _

theorem rankSumAuxC_eq [DecidableEq α] (g : GraphState α)
    (r : List (α × ℚ)) :
    ∀ (l : List α), (∀ u ∈ l, containsNodeKey g u = true) →
      ∀ s, rankSumAuxC g r l s =
        some (l.foldl
          (fun s u =>
            if 0 < outDegreeT g u then
              s + lookupRank r u / (outDegreeT g u : ℚ)
            else s) s) := by
  intro l
  induction l with
  | nil => intro _ s; rfl
  | cons u rest ih =>
    intro h s
    unfold rankSumAuxC
    rw [outDegreeC_eq g u (h u (by simp))]
    by_cases hu : 0 < outDegreeT g u
    · have hq : qdiv (lookupRank r u) ((outDegreeT g u : ℚ)) =
          some (lookupRank r u / (outDegreeT g u : ℚ)) := by
        unfold qdiv
        rw [if_neg (Nat.cast_ne_zero.mpr (by omega))]
      simp only [if_pos hu, hq]
      rw [List.foldl_cons, if_pos hu]
      exact ih (fun x hx => h x (List.mem_cons_of_mem _ hx)) _
    · simp only [if_neg hu]
      rw [List.foldl_cons, if_neg hu]
      exact ih (fun x hx => h x (List.mem_cons_of_mem _ hx)) _

theorem mapOpt_eq {β γ : Type} (f : β → Option γ) (h : β → γ) :
    ∀ (l : List β), (∀ x ∈ l, f x = some (h x)) →
      mapOpt f l = some (l.map h) := by
  intro l
  induction l with
  | nil => intro _; rfl
  | cons x xs ih =>
    intro hl
    unfold mapOpt
    rw [hl x (by simp), ih (fun y hy => hl y (List.mem_cons_of_mem _ hy))]
    rfl

theorem contains_of_mem_nodesFn [LinearOrder α] (g : GraphState α)
    (nd : Node α) (h : nd ∈ nodesFn g) :
    containsNodeKey g nd.identifier = true :=
  (containsNodeKey_iff g nd.identifier).mpr
    (identifier_mem_of_mem_nodesFn g nd h)

theorem contains_of_mem_inLinks [LinearOrder α] (g : GraphState α)
    (v u : α)
    (hsrc : ∀ e ∈ g.edgeList,
      e.node1.identifier ∈ g.nodeList.map Node.identifier)
    (h : u ∈ inLinks g v) : containsNodeKey g u = true := by
  obtain ⟨e, he, rfl⟩ := List.mem_map.mp h
  have he3 := mem_edgeList_of_mem_edgesFn g e (List.mem_of_mem_filter he)
  exact (containsNodeKey_iff g _).mpr (hsrc e he3)

theorem pagerankStepC_eq [LinearOrder α] (g : GraphState α) (d : ℚ)
    (r : List (α × ℚ))
    (hn0 : (g.nodeList.length : ℚ) ≠ 0)
    (hsrc : ∀ e ∈ g.edgeList,
      e.node1.identifier ∈ g.nodeList.map Node.identifier) :
    pagerankStepC g d r = some (pagerankStep g d r) := by
  have hq1 : qdiv (1 - d) ((g.nodeList.length : ℚ)) =
      some ((1 - d) / (g.nodeList.length : ℚ)) := by
    unfold qdiv
    rw [if_neg hn0]
  have hq2 : qdiv (danglingSum g r) ((g.nodeList.length : ℚ)) =
      some (danglingSum g r / (g.nodeList.length : ℚ)) := by
    unfold qdiv
    rw [if_neg hn0]
  have hmain : mapOpt (fun nd =>
      match rankSumAuxC g r (inLinks g nd.identifier) 0 with
      | none => none
      | some rs =>
        match qdiv (1 - d) ((g.nodeList.length : ℚ)),
            qdiv (danglingSum g r) ((g.nodeList.length : ℚ)) with
        | some a, some b => some (nd.identifier, a + d * (rs + b))
        | _, _ => none) (nodesFn g) = some (pagerankStep g d r) := by
    rw [mapOpt_eq _ (fun nd =>
        (nd.identifier,
          (1 - d) / (g.nodeList.length : ℚ) +
            d * (rankSum g r nd.identifier +
              danglingSum g r / (g.nodeList.length : ℚ)))) (nodesFn g) ?_]
    · rfl
    · intro nd hnd
      rw [rankSumAuxC_eq g r (inLinks g nd.identifier)
        (fun u hu => contains_of_mem_inLinks g nd.identifier u hsrc hu) 0,
        hq1, hq2]
      rfl
  unfold pagerankStepC
  rw [danglingAuxC_eq g r (nodesFn g)
    (fun nd hnd => contains_of_mem_nodesFn g nd hnd) 0]
  exact hmain

/-- Claim C8: with `N ≥ 1` (and edge sources drawn from the graph's
nodes, as the API guarantees), the checked engine — in which every
division fails on a zero divisor and every `out_degree` call fails on an
absent identifier — never fails and computes exactly what `pagerank`
computes: the divisions by `N` are safe because `N ≥ 1`, and the division
by `out_degree(u)` is reached only under the `out_degree > 0` guard. -/
theorem pagerank_never_divides_by_zero [LinearOrder α] (g : GraphState α)
    (d : ℚ) (k : Nat)
    (hN : 1 ≤ g.nodeList.length)
    (hsrc : ∀ e ∈ g.edgeList,
      e.node1.identifier ∈ g.nodeList.map Node.identifier) :
    pagerankAuxC g d k = some (pagerank g k d) := by
  have hn0 : (g.nodeList.length : ℚ) ≠ 0 := Nat.cast_ne_zero.mpr (by omega)
  induction k with
  | zero =>
    show mapOpt _ _ = some (initRanks g)
    rw [mapOpt_eq _ (fun nd =>
        (nd.identifier, 1 / (g.nodeList.length : ℚ))) (nodesFn g) ?_]
    · rfl
    · intro nd _
      have hq : qdiv 1 ((g.nodeList.length : ℚ)) =
          some (1 / (g.nodeList.length : ℚ)) := by
        unfold qdiv
        rw [if_neg hn0]
      rw [hq]
      rfl
  | succ k ih =>
    show (match pagerankAuxC g d k with
      | none => none
      | some r => pagerankStepC g d r) = _
    rw [ih]
    exact pagerankStepC_eq g d (pagerankAux g d k) hn0 hsrc

/-- Witness for C8 on the chain graph with a dangling node. -/
theorem pagerank_never_divides_by_zero_witness :
    pagerankAuxC gChain (17 / 20) 2 = some (pagerank gChain 2 (17 / 20)) :=
  pagerank_never_divides_by_zero gChain (17 / 20) 2 (by decide) (by decide)

/-! ### The report formatter lists ranks in the documented order -/

theorem map_keys_lookup (r : List (Nat × ℚ))
    (hnd : (r.map Prod.fst).Nodup) :
    (r.map Prod.fst).map (fun i => lookupRank r i) = r.map Prod.snd := by
  induction r with
  | nil => rfl
  | cons p rest ih =>
    have hnd2 : (p.1 :: rest.map Prod.fst).Nodup := by simpa using hnd
    obtain ⟨hk, hnds⟩ := List.nodup_cons.mp hnd2
    simp only [List.map_cons]
    congr 1
    · unfold lookupRank
      rw [List.find?_cons_of_pos _ (by simp)]
      rfl
    · have hrest : (rest.map Prod.fst).map
          (fun i => lookupRank (p :: rest) i) =
          (rest.map Prod.fst).map (fun i => lookupRank rest i) := by
        apply List.map_congr_left
        intro i hi
        unfold lookupRank
        rw [List.find?_cons_of_neg _ ?_]
        simp only [decide_eq_true_eq]
        intro h
        exact hk (by rw [h]; exact hi)
      rw [hrest, ih hnds]

/-- Claim C9: `print_ranks` lists up to the caller's maximum count of
`id: rank` lines, ordered by descending rank rounded to five decimals with
ties broken by descending identifier (the unique such ordering of the
keys), followed by an ellipsis line exactly when the listing is truncated,
followed by a sum line carrying the sum of all ranks in five-decimal
fixed-point form. -/
theorem print_ranks_report (r : List (Nat × ℚ)) (maxNodes : Nat)
    (ids : List Nat) (hne : r ≠ [])
    (hnd : (r.map Prod.fst).Nodup)
    (hperm : ids.Perm (r.map Prod.fst))
    (hsort : List.Sorted (printOrder r) ids) :
    printRanks r maxNodes =
      ((ids.take (min maxNodes r.length)).map
          (fun i => s!"{i}: {formatFixed5 (lookupRank r i)}")) ++
        (if maxNodes < r.length then ["..."] else []) ++
        [s!"Sum: {formatFixed5 ((r.map Prod.snd).sum)}"] := by
  have hids : ids = List.insertionSort (printOrder r) (r.map Prod.fst) :=
    List.eq_of_perm_of_sorted
      (hperm.trans (List.perm_insertionSort _ _).symm) hsort
      (List.sorted_insertionSort _ _)
  have hsum : (ids.map (fun i => lookupRank r i)).sum =
      (r.map Prod.snd).sum := by
    rw [(hperm.map (fun i => lookupRank r i)).sum_eq, map_keys_lookup r hnd]
  simp only [printRanks, ← hids, hsum]
  by_cases hc : maxNodes < r.length
  · simp only [if_pos hc, Nat.min_eq_left (Nat.le_of_lt hc)]
  · simp only [if_neg hc, if_neg (lt_irrefl r.length),
      Nat.min_eq_right (Nat.le_of_not_lt hc)]

/-- The example rank mapping of the claim:
`{0: 0.4, 1: 0.35, 2: 0.15, 3: 0.1}`. -/
def exampleRanks : List (Nat × ℚ) :=
  [(0, mkRat 2 5), (1, mkRat 7 20), (2, mkRat 3 20), (3, mkRat 1 10)]

/-- Witness for C9: on the claim's example with a maximum of 2, the report
lists node 0, then node 1, then the ellipsis line, then `Sum: 1.00000`. -/
theorem print_ranks_report_witness :
    printRanks exampleRanks 2 =
      ["0: 0.40000", "1: 0.35000", "...", "Sum: 1.00000"] := by
  have hs : (exampleRanks.map Prod.snd).sum = mkRat 1 1 := by
    show mkRat 2 5 + (mkRat 7 20 + (mkRat 3 20 + (mkRat 1 10 + 0))) =
      mkRat 1 1
    norm_num [Rat.mkRat_eq_div]
  rw [print_ranks_report exampleRanks 2 [0, 1, 2, 3] (by decide) (by decide)
    (by decide) (by decide), hs]
  decide

end PageRankRepo
